import Mathlib

/-!
Verification development for the Foodler repository.

The inventory store (`foodler/database/fridge_db.py`), the nutrition
calculator (`foodler/calculator/nutrition_calculator.py`) and the
multi-source nutrition lookup (`foodler/scrapers/nutrition_scraper.py`,
`foodler/scrapers/openfoodfacts_api.py`) are embedded shallowly:
Python floats become rationals, timestamps become naturals, SQL rows
become a list of records, and the `datetime.now` clock becomes an
explicit argument.
-/

set_option maxHeartbeats 1000000

namespace Foodler

/-! ### Inventory store: `FoodItem` rows and the database state

`FoodItem` mirrors the SQLAlchemy model in `fridge_db.py`: nullable
columns become `Option`, the `DateTime` columns become natural-number
timestamps.  `FridgeDb` is the table contents plus the next id the
storage engine will assign (SQLite assigns consecutive row ids starting
from 1 when rows are only ever inserted). -/

structure FoodItem where
  id : ℕ
  name : String
  quantity : ℚ
  unit : String
  last_used_date : Option ℕ
  meals_without : ℕ
  calories : Option ℚ
  protein : Option ℚ
  carbs : Option ℚ
  fats : Option ℚ
  added_date : ℕ
deriving DecidableEq, Repr

structure FridgeDb where
  items : List FoodItem
  nextId : ℕ
deriving DecidableEq, Repr

def emptyDb : FridgeDb := ⟨[], 1⟩

/-- `FridgeDatabase.add_item`: builds the row with `meals_without=0`,
no `last_used_date`, `added_date = now`, and persists it.  The code
performs no validation of `name` or `quantity`. -/
def addItem (db : FridgeDb) (now : ℕ) (name : String) (quantity : ℚ)
    (unit : String) (calories protein carbs fats : Option ℚ) :
    FoodItem × FridgeDb :=
  let item : FoodItem :=
    ⟨db.nextId, name, quantity, unit, none, 0, calories, protein, carbs, fats, now⟩
  (item, ⟨db.items ++ [item], db.nextId + 1⟩)

/-- `FridgeDatabase.get_all_items`: the full table in storage order. -/
def getAllItems (db : FridgeDb) : List FoodItem := db.items

/-- Comparison used by `last_used_date.asc().nullsfirst()`:
a missing date sorts before any present date. -/
def dateLEb : Option ℕ → Option ℕ → Bool
  | none, _ => true
  | some _, none => false
  | some a, some b => decide (a ≤ b)

/-- The two-key order of `get_items_to_use`:
`meals_without` descending, then `last_used_date` ascending nulls first. -/
def itemLE (a b : FoodItem) : Prop :=
  b.meals_without < a.meals_without ∨
    (a.meals_without = b.meals_without ∧
      dateLEb a.last_used_date b.last_used_date = true)

instance : DecidableRel itemLE := fun a b =>
  inferInstanceAs (Decidable (b.meals_without < a.meals_without ∨
    (a.meals_without = b.meals_without ∧
      dateLEb a.last_used_date b.last_used_date = true)))

lemma dateLEb_total (a b : Option ℕ) : dateLEb a b = true ∨ dateLEb b a = true := by
  cases a <;> cases b <;> simp [dateLEb] <;> omega

lemma dateLEb_trans {a b c : Option ℕ} (h₁ : dateLEb a b = true)
    (h₂ : dateLEb b c = true) : dateLEb a c = true := by
  cases a <;> cases b <;> cases c <;> simp [dateLEb] at * <;> omega

instance : IsTotal FoodItem itemLE := by
  constructor
  intro a b
  rcases Nat.lt_trichotomy a.meals_without b.meals_without with h | h | h
  · exact Or.inr (Or.inl h)
  · rcases dateLEb_total a.last_used_date b.last_used_date with hd | hd
    · exact Or.inl (Or.inr ⟨h, hd⟩)
    · exact Or.inr (Or.inr ⟨h.symm, hd⟩)
  · exact Or.inl (Or.inl h)

instance : IsTrans FoodItem itemLE := by
  constructor
  intro a b c hab hbc
  rcases hab with h₁ | ⟨e₁, d₁⟩ <;> rcases hbc with h₂ | ⟨e₂, d₂⟩
  · exact Or.inl (by omega)
  · exact Or.inl (by omega)
  · exact Or.inl (by omega)
  · exact Or.inr ⟨e₁.trans e₂, dateLEb_trans d₁ d₂⟩

/-- `FridgeDatabase.get_items_to_use`: `ORDER BY meals_without DESC,
last_used_date ASC NULLS FIRST LIMIT limit`, modelled as a stable sort
of the table followed by a truncation. -/
def getItemsToUse (db : FridgeDb) (limit : ℕ) : List FoodItem :=
  (List.insertionSort itemLE db.items).take limit

/-! ### Claim C1: the rotation query -/

/-- The three rows of the worked example in the claim:
`meals_without = [3, 1, 3]`, `last_used_date = [null, t1, t0]`. -/
def exItem0 : FoodItem := ⟨1, "a", 1, "g", none, 3, none, none, none, none, 0⟩

def exItem1 (t1 : ℕ) : FoodItem := ⟨2, "b", 1, "g", some t1, 1, none, none, none, none, 0⟩

def exItem2 (t0 : ℕ) : FoodItem := ⟨3, "c", 1, "g", some t0, 3, none, none, none, none, 0⟩

def exDb (t0 t1 : ℕ) : FridgeDb := ⟨[exItem0, exItem1 t1, exItem2 t0], 4⟩

/-- C1: `get_items_to_use(limit)` returns the rows ordered by
`meals_without` descending then `last_used_date` ascending with missing
dates first, truncated to at most `limit` rows, and on the worked
example (`meals_without = [3,1,3]`, dates `[null, t1, t0]`, `t0 < t1`)
the order is `[item0, item2, item1]`. -/
theorem get_items_to_use_spec :
    (∀ (db : FridgeDb) (limit : ℕ),
      List.Sorted itemLE (getItemsToUse db limit) ∧
      (getItemsToUse db limit).length ≤ limit ∧
      List.Subperm (getItemsToUse db limit) db.items) ∧
    (∀ t0 t1 : ℕ, t0 < t1 →
      getItemsToUse (exDb t0 t1) 10 = [exItem0, exItem2 t0, exItem1 t1]) := by
  constructor
  · intro db limit
    refine ⟨?_, ?_, ?_⟩
    · exact (List.sorted_insertionSort itemLE db.items).sublist
        (List.take_sublist _ _)
    · exact List.length_take_le _ _
    · exact ((List.take_sublist _ _).subperm).trans
        (List.perm_insertionSort itemLE db.items).subperm
  · intro t0 t1 _
    rfl

theorem get_items_to_use_spec_witness :
    getItemsToUse (exDb 0 1) 10 = [exItem0, exItem2 0, exItem1 1] :=
  get_items_to_use_spec.2 0 1 (by decide)

/-! ### `mark_as_used` and `increment_meals_without` -/

/-- The row update performed by `mark_as_used`:
`last_used_date = now`, `meals_without = 0`. -/
def markUpd (now : ℕ) (i : FoodItem) : FoodItem :=
  { i with last_used_date := some now, meals_without := 0 }

/-- Applies `f` to the first row matching `itemId` (the `.first()` of the
filtered query); a miss leaves the table unchanged. -/
def updateFirst (l : List FoodItem) (itemId : ℕ) (f : FoodItem → FoodItem) :
    List FoodItem :=
  match l with
  | [] => []
  | i :: rest =>
    if i.id = itemId then f i :: rest else i :: updateFirst rest itemId f

/-- `FridgeDatabase.mark_as_used`: returns the updated row (or `none` on
a missing id) and the new table. -/
def markAsUsed (db : FridgeDb) (now itemId : ℕ) : Option FoodItem × FridgeDb :=
  ((db.items.find? (fun i => i.id == itemId)).map (markUpd now),
    ⟨updateFirst db.items itemId (markUpd now), db.nextId⟩)

/-- The per-row effect of `increment_meals_without`: rows whose id is
excluded are left alone, every other row gets `meals_without += 1`. -/
def incItem (excludeIds : List ℕ) (i : FoodItem) : FoodItem :=
  if i.id ∈ excludeIds then i else { i with meals_without := i.meals_without + 1 }

/-- `FridgeDatabase.increment_meals_without`: the query selects every row
whose id is not excluded and bumps its counter, which is the conditional
map below. -/
def incrementMealsWithout (db : FridgeDb) (excludeIds : List ℕ) : FridgeDb :=
  ⟨db.items.map (incItem excludeIds), db.nextId⟩

/-! ### Claim C4: `increment_meals_without` -/

/-- Row-wise relation between the table after one
`increment_meals_without` call and the table before it. -/
def incRel (ex : List ℕ) (i' i : FoodItem) : Prop :=
  (i.id ∈ ex → i' = i) ∧
  (i.id ∉ ex → i'.meals_without = i.meals_without + 1 ∧ i'.id = i.id ∧
    i'.name = i.name ∧ i'.quantity = i.quantity ∧ i'.unit = i.unit ∧
    i'.last_used_date = i.last_used_date ∧ i'.calories = i.calories ∧
    i'.protein = i.protein ∧ i'.carbs = i.carbs ∧ i'.fats = i.fats ∧
    i'.added_date = i.added_date)

/-- Row-wise relation after two calls with the same exclusion list. -/
def incTwiceRel (ex : List ℕ) (i' i : FoodItem) : Prop :=
  (i.id ∈ ex → i' = i) ∧ (i.id ∉ ex → i'.meals_without = i.meals_without + 2)

lemma forall₂_map_of_rel {R : FoodItem → FoodItem → Prop} {g : FoodItem → FoodItem}
    (h : ∀ a, R (g a) a) : ∀ l : List FoodItem, List.Forall₂ R (l.map g) l := by
  intro l
  induction l with
  | nil => exact List.Forall₂.nil
  | cons a t ih => exact List.Forall₂.cons (h a) ih

/-- C4: `increment_meals_without(exclude_ids)` bumps the counter of every
non-excluded row by exactly 1, leaving every other field and every
excluded row unchanged; two calls with the same exclusion list bump the
non-excluded counters by exactly 2. -/
theorem increment_meals_without_spec (db : FridgeDb) (ex : List ℕ) :
    List.Forall₂ (incRel ex) (incrementMealsWithout db ex).items db.items ∧
    List.Forall₂ (incTwiceRel ex)
      (incrementMealsWithout (incrementMealsWithout db ex) ex).items db.items := by
  constructor
  · apply forall₂_map_of_rel
    intro a
    by_cases h : a.id ∈ ex
    · exact ⟨fun _ => by simp [incItem, h], fun hn => absurd h hn⟩
    · exact ⟨fun hm => absurd hm h, fun _ => by simp [incItem, h]⟩
  · show List.Forall₂ (incTwiceRel ex) ((db.items.map (incItem ex)).map (incItem ex)) db.items
    rw [List.map_map]
    apply forall₂_map_of_rel
    intro a
    by_cases h : a.id ∈ ex
    · exact ⟨fun _ => by simp [incItem, h], fun hn => absurd h hn⟩
    · refine ⟨fun hm => absurd hm h, fun _ => ?_⟩
      have hid : (incItem ex a).id = a.id := by simp [incItem, h]
      simp [Function.comp, incItem, h, hid]

def exDb4 : FridgeDb :=
  ⟨[⟨1, "a", 1, "g", none, 0, none, none, none, none, 0⟩,
    ⟨2, "b", 1, "g", none, 5, none, none, none, none, 0⟩], 3⟩

theorem increment_meals_without_spec_witness :
    List.Forall₂ (incRel [2]) (incrementMealsWithout exDb4 [2]).items exDb4.items ∧
    List.Forall₂ (incTwiceRel [2])
      (incrementMealsWithout (incrementMealsWithout exDb4 [2]) [2]).items
      exDb4.items :=
  increment_meals_without_spec exDb4 [2]

/-! ### Claim C3: `add_item` validation

The spec requires `add_item` to fail with a `ValidationError` on an
empty name or a negative quantity.  The implementation performs no
check at all: it builds the row from the given arguments and commits
it unconditionally. -/

/-- C3 counterexample: calling `add_item` with an empty name and a
negative quantity does not fail; it persists the malformed row, so the
claimed `ValidationError` (with nothing persisted) does not happen. -/
theorem add_item_no_validation :
    (getAllItems (addItem emptyDb 0 "" (-1) "g" none none none none).2).length = 1 ∧
    (addItem emptyDb 0 "" (-1) "g" none none none none).1.name = "" ∧
    (addItem emptyDb 0 "" (-1) "g" none none none none).1.quantity = -1 := by
  exact ⟨rfl, rfl, rfl⟩

/-- C3 (amended): `add_item` validates nothing; for every input,
including an empty name or a negative quantity, it creates the row with
the given fields, a fresh id and a zero counter, persists it, and
returns it. -/
theorem add_item_amended (db : FridgeDb) (now : ℕ) (nm : String) (q : ℚ)
    (u : String) (c p cb f : Option ℚ)
    (hfresh : ∀ i ∈ db.items, i.id < db.nextId) :
    (addItem db now nm q u c p cb f).1.name = nm ∧
    (addItem db now nm q u c p cb f).1.quantity = q ∧
    (addItem db now nm q u c p cb f).1.unit = u ∧
    (addItem db now nm q u c p cb f).1.meals_without = 0 ∧
    (addItem db now nm q u c p cb f).1.last_used_date = none ∧
    (addItem db now nm q u c p cb f).1.id ∉ db.items.map FoodItem.id ∧
    getAllItems (addItem db now nm q u c p cb f).2 =
      db.items ++ [(addItem db now nm q u c p cb f).1] := by
  refine ⟨rfl, rfl, rfl, rfl, rfl, ?_, rfl⟩
  intro hmem
  rcases List.mem_map.1 hmem with ⟨i, hi, hid⟩
  have := hfresh i hi
  simp only [addItem] at hid
  omega

theorem add_item_amended_witness :
    (addItem emptyDb 0 "milk" 1 "l" none none none none).1.name = "milk" ∧
    (addItem emptyDb 0 "milk" 1 "l" none none none none).1.quantity = 1 ∧
    (addItem emptyDb 0 "milk" 1 "l" none none none none).1.unit = "l" ∧
    (addItem emptyDb 0 "milk" 1 "l" none none none none).1.meals_without = 0 ∧
    (addItem emptyDb 0 "milk" 1 "l" none none none none).1.last_used_date = none ∧
    (addItem emptyDb 0 "milk" 1 "l" none none none none).1.id ∉
      emptyDb.items.map FoodItem.id ∧
    getAllItems (addItem emptyDb 0 "milk" 1 "l" none none none none).2 =
      emptyDb.items ++ [(addItem emptyDb 0 "milk" 1 "l" none none none none).1] :=
  add_item_amended emptyDb 0 "milk" 1 "l" none none none none
    (by intro i hi; simp [emptyDb] at hi)

/-! ### Claim C8: sequences of `add_item` calls -/

/-- Arguments of one `add_item` call. -/
structure AddReq where
  now : ℕ
  name : String
  quantity : ℚ
  unit : String
  calories : Option ℚ
  protein : Option ℚ
  carbs : Option ℚ
  fats : Option ℚ

/-- Runs a sequence of `add_item` calls, collecting the returned rows. -/
def addAll : FridgeDb → List AddReq → List FoodItem × FridgeDb
  | db, [] => ([], db)
  | db, r :: rs =>
    let step := addItem db r.now r.name r.quantity r.unit r.calories r.protein r.carbs r.fats
    let rest := addAll step.2 rs
    (step.1 :: rest.1, rest.2)

lemma addAll_items_ids (rs : List AddReq) :
    ∀ db : FridgeDb,
      (addAll db rs).2.items = db.items ++ (addAll db rs).1 ∧
      (addAll db rs).1.map FoodItem.id = List.range' db.nextId rs.length := by
  induction rs with
  | nil => intro db; simp [addAll]
  | cons r rs ih =>
    intro db
    have h := ih ⟨db.items ++ [⟨db.nextId, r.name, r.quantity, r.unit, none, 0,
      r.calories, r.protein, r.carbs, r.fats, r.now⟩], db.nextId + 1⟩
    constructor
    · simp only [addAll, addItem]
      rw [h.1]
      simp
    · simp only [addAll, addItem, List.map_cons]
      rw [h.2]
      simp [List.range'_succ]

/-- C8: starting from the empty store, every id returned by a sequence
of `add_item` calls is distinct, and `get_all_items` afterwards returns
exactly the rows those calls created. -/
theorem add_item_sequence_spec (rs : List AddReq) :
    ((addAll emptyDb rs).1.map FoodItem.id).Nodup ∧
    getAllItems (addAll emptyDb rs).2 = (addAll emptyDb rs).1 := by
  have h := addAll_items_ids rs emptyDb
  constructor
  · rw [h.2]
    exact List.nodup_range' _ _
  · show (addAll emptyDb rs).2.items = _
    rw [h.1]
    simp [emptyDb]

/-! ### Claim C5: `mark_as_used` then `get_items_to_use(1)`

The claim as stated is false: on an inventory holding a single item,
`get_items_to_use(1)` returns that very item right after it was marked,
because the truncated sort must return something.  It holds as soon as
some other item sorts strictly before the freshly marked one: another
item with a positive counter, or a never-used item, or an item last
used strictly before the marking time. -/

def cdb5 : FridgeDb := ⟨[⟨1, "milk", 1, "l", none, 5, none, none, none, none, 0⟩], 2⟩

/-- C5 counterexample: with a one-item inventory, marking item 1 as used
and asking `get_items_to_use(1)` yields exactly item 1 first, which the
claim says never happens. -/
theorem mark_as_used_rotation_counterexample :
    (getItemsToUse (markAsUsed cdb5 10 1).2 1).map FoodItem.id = [1] := by
  decide

lemma updateFirst_mem_of_ne {l : List FoodItem} {y : FoodItem} {itemId : ℕ}
    {f : FoodItem → FoodItem} (hy : y ∈ l) (hne : y.id ≠ itemId) :
    y ∈ updateFirst l itemId f := by
  induction l with
  | nil => cases hy
  | cons i rest ih =>
    rcases List.mem_cons.1 hy with rfl | hmem
    · rw [updateFirst, if_neg hne]
      exact List.mem_cons_self _ _
    · by_cases h : i.id = itemId
      · rw [updateFirst, if_pos h]
        exact List.mem_cons_of_mem _ hmem
      · rw [updateFirst, if_neg h]
        exact List.mem_cons_of_mem _ (ih hmem)

lemma mem_updateFirst_marked {l : List FoodItem} {itemId now : ℕ}
    (hnd : (l.map FoodItem.id).Nodup) :
    ∀ z ∈ updateFirst l itemId (markUpd now), z.id = itemId →
      z.meals_without = 0 ∧ z.last_used_date = some now := by
  induction l with
  | nil => intro z hz; cases hz
  | cons i rest ih =>
    simp only [List.map_cons, List.nodup_cons] at hnd
    intro z hz hzid
    by_cases h : i.id = itemId
    · rw [updateFirst, if_pos h] at hz
      rcases List.mem_cons.1 hz with rfl | hmem
      · exact ⟨rfl, rfl⟩
      · exact absurd (List.mem_map.2 ⟨z, hmem, by rw [hzid, h]⟩) hnd.1
    · rw [updateFirst, if_neg h] at hz
      rcases List.mem_cons.1 hz with rfl | hmem
      · exact absurd hzid h
      · exact ih hnd.2 z hmem hzid

lemma not_itemLE_marked {y z : FoodItem} {now : ℕ}
    (hz0 : z.meals_without = 0) (hzd : z.last_used_date = some now)
    (hy : 0 < y.meals_without ∨ y.last_used_date = none ∨
      ∃ d, y.last_used_date = some d ∧ d < now) :
    ¬ itemLE z y := by
  intro hle
  rcases hle with hlt | ⟨heq, hd⟩
  · rw [hz0] at hlt
    exact absurd hlt (Nat.not_lt_zero _)
  · rw [hzd] at hd
    rcases hy with hmw | hnone | ⟨d, hld, hdn⟩
    · rw [hz0] at heq; omega
    · rw [hnone] at hd
      simp [dateLEb] at hd
    · rw [hld] at hd
      simp [dateLEb] at hd
      omega

/-- C5 (amended): after `mark_as_used(x)`, `get_items_to_use(1)` does
not return x first provided the inventory has distinct ids and holds
some other item that sorts strictly before the marked one: an item with
a positive `meals_without`, or a never-used item, or one last used
strictly before the marking time.  (On a one-item inventory, or when
every other item ties with or trails the marked one, x can still be
returned first.) -/
theorem mark_as_used_rotation_amended (db : FridgeDb) (now xid : ℕ)
    (hnd : (db.items.map FoodItem.id).Nodup)
    (hx : ∃ x ∈ db.items, x.id = xid)
    (hy : ∃ y ∈ db.items, y.id ≠ xid ∧
      (0 < y.meals_without ∨ y.last_used_date = none ∨
        ∃ d, y.last_used_date = some d ∧ d < now)) :
    (getItemsToUse (markAsUsed db now xid).2 1).all
      (fun i => i.id != xid) = true := by
  clear hx
  rcases hy with ⟨y, hymem, hyne, hyprop⟩
  rw [List.all_eq_true]
  intro i hi
  have hitems : (markAsUsed db now xid).2.items =
      updateFirst db.items xid (markUpd now) := rfl
  rw [bne_iff_ne]
  intro hiid
  have hperm : List.Perm (List.insertionSort itemLE (markAsUsed db now xid).2.items)
      ((markAsUsed db now xid).2.items) :=
    List.perm_insertionSort itemLE _
  have hsorted : List.Sorted itemLE
      (List.insertionSort itemLE (markAsUsed db now xid).2.items) :=
    List.sorted_insertionSort itemLE _
  have hy' : y ∈ List.insertionSort itemLE (markAsUsed db now xid).2.items := by
    rw [hperm.mem_iff, hitems]
    exact updateFirst_mem_of_ne hymem hyne
  cases hs : List.insertionSort itemLE (markAsUsed db now xid).2.items with
  | nil =>
    simp only [getItemsToUse] at hi
    rw [hs] at hi
    cases hi
  | cons a t =>
    simp only [getItemsToUse] at hi
    rw [hs, List.take_succ_cons, List.take_zero] at hi
    rcases List.mem_singleton.1 hi with rfl
    have hamem : i ∈ (markAsUsed db now xid).2.items := by
      rw [← hperm.mem_iff, hs]
      exact List.mem_cons_self _ _
    have hmarks := mem_updateFirst_marked hnd i (hitems ▸ hamem) hiid
    rw [hs] at hy' hsorted
    rcases List.mem_cons.1 hy' with rfl | hyt
    · exact hyne hiid
    · exact not_itemLE_marked hmarks.1 hmarks.2 hyprop
        (List.rel_of_sorted_cons hsorted y hyt)

theorem mark_as_used_rotation_amended_witness :
    (getItemsToUse (markAsUsed exDb4 10 1).2 1).all
      (fun i => i.id != 1) = true :=
  mark_as_used_rotation_amended exDb4 10 1 (by decide)
    ⟨⟨1, "a", 1, "g", none, 0, none, none, none, none, 0⟩, by decide, rfl⟩
    ⟨⟨2, "b", 1, "g", none, 5, none, none, none, none, 0⟩, by decide,
      by decide, Or.inl (by decide)⟩

/-! ### Nutrition calculator (`nutrition_calculator.py`)

Foods are the loosely-typed dictionaries the calculator receives:
a missing key defaults to 0 through `dict.get`, hence the `Option`
fields.  Python floats become rationals, and `round(x, 2)` becomes
exact half-to-even rounding at two decimals. -/

structure Food where
  name : String
  quantity : Option ℚ
  calories : Option ℚ
  protein : Option ℚ
  carbs : Option ℚ
  fats : Option ℚ
deriving DecidableEq, Repr

@[ext]
structure Nutrients where
  calories : ℚ
  protein : ℚ
  carbs : ℚ
  fats : ℚ
deriving DecidableEq, Repr

structure DailyNeeds where
  calories : ℚ
  protein : ℚ
  carbs : ℚ
  fats : ℚ
  fiber : ℚ
deriving DecidableEq, Repr

/-- `DEFAULT_DAILY_NEEDS`. -/
def defaultDailyNeeds : DailyNeeds := ⟨2000, 50, 275, 70, 25⟩

/-- Python `round` to an integer: round half to even. -/
def pyRound (q : ℚ) : ℤ :=
  if q - ⌊q⌋ < 1/2 then ⌊q⌋
  else if (1 : ℚ)/2 < q - ⌊q⌋ then ⌊q⌋ + 1
  else if ⌊q⌋ % 2 = 0 then ⌊q⌋ else ⌊q⌋ + 1

/-- Python `round(x, 2)`. -/
def round2 (q : ℚ) : ℚ := (pyRound (q * 100) : ℚ) / 100

/-- One step of the totals loop of `calculate_meal_balance`: nutrient
values are per 100g, scaled by `quantity / 100`. -/
def addFood (t : Nutrients) (food : Food) : Nutrients :=
  let factor := food.quantity.getD 0 / 100
  ⟨t.calories + food.calories.getD 0 * factor,
   t.protein + food.protein.getD 0 * factor,
   t.carbs + food.carbs.getD 0 * factor,
   t.fats + food.fats.getD 0 * factor⟩

def mealTotals (foods : List Food) : Nutrients := foods.foldl addFood ⟨0, 0, 0, 0⟩

/-- The per-meal target of `_is_balanced` (`33.33`, three meals a day). -/
def balanceTarget : ℚ := 3333/100

/-- `_is_balanced`: every percentage must lie in
`[target - tolerance, target + tolerance]`. -/
def isBalancedB (p : Nutrients) (tol : ℚ) : Bool :=
  (decide (balanceTarget - tol ≤ p.calories ∧ p.calories ≤ balanceTarget + tol) &&
   decide (balanceTarget - tol ≤ p.protein ∧ p.protein ≤ balanceTarget + tol) &&
   decide (balanceTarget - tol ≤ p.carbs ∧ p.carbs ≤ balanceTarget + tol) &&
   decide (balanceTarget - tol ≤ p.fats ∧ p.fats ≤ balanceTarget + tol))

structure MealBalance where
  totals : Nutrients
  percentages : Nutrients
  is_balanced : Bool
deriving DecidableEq, Repr

/-- `NutritionCalculator.calculate_meal_balance` with the calculator
holding the daily-needs profile `dn`. -/
def calculateMealBalance (dn : DailyNeeds) (foods : List Food) : MealBalance :=
  let totals := mealTotals foods
  let percentages : Nutrients :=
    ⟨round2 (totals.calories / dn.calories * 100),
     round2 (totals.protein / dn.protein * 100),
     round2 (totals.carbs / dn.carbs * 100),
     round2 (totals.fats / dn.fats * 100)⟩
  ⟨totals, percentages, isBalancedB percentages 15⟩

lemma mealTotals_foldl (foods : List Food) : ∀ t : Nutrients,
    foods.foldl addFood t =
      ⟨t.calories + (foods.map fun f => f.calories.getD 0 * (f.quantity.getD 0 / 100)).sum,
       t.protein + (foods.map fun f => f.protein.getD 0 * (f.quantity.getD 0 / 100)).sum,
       t.carbs + (foods.map fun f => f.carbs.getD 0 * (f.quantity.getD 0 / 100)).sum,
       t.fats + (foods.map fun f => f.fats.getD 0 * (f.quantity.getD 0 / 100)).sum⟩ := by
  induction foods with
  | nil => intro t; simp
  | cons f fs ih =>
    intro t
    rw [List.foldl_cons, ih]
    simp only [addFood, List.map_cons, List.sum_cons, Nutrients.mk.injEq]
    refine ⟨by ring, by ring, by ring, by ring⟩

lemma isBalancedB_iff (p : Nutrients) (tol : ℚ) :
    isBalancedB p tol = true ↔
      (|p.calories - balanceTarget| ≤ tol ∧ |p.protein - balanceTarget| ≤ tol ∧
       |p.carbs - balanceTarget| ≤ tol ∧ |p.fats - balanceTarget| ≤ tol) := by
  simp only [isBalancedB, Bool.and_eq_true, decide_eq_true_eq, abs_le]
  constructor
  · rintro ⟨⟨⟨⟨h1, h2⟩, h3, h4⟩, h5, h6⟩, h7, h8⟩
    exact ⟨⟨by linarith, by linarith⟩, ⟨by linarith, by linarith⟩,
      ⟨by linarith, by linarith⟩, by linarith, by linarith⟩
  · rintro ⟨⟨h1, h2⟩, ⟨h3, h4⟩, ⟨h5, h6⟩, h7, h8⟩
    exact ⟨⟨⟨⟨by linarith, by linarith⟩, by linarith, by linarith⟩,
      by linarith, by linarith⟩, by linarith, by linarith⟩

/-- C6: `calculate_meal_balance` sums per-100g values scaled by
`quantity/100`, computes rounded percentages of the daily needs, sets
`is_balanced` exactly when every percentage is within 15 points of
33.33, hence any percentage of 50 fails the meal; a single 100g food
with 200 kcal against a 2000 kcal daily need gives a 10.0 calorie
percentage. -/
theorem calculate_meal_balance_spec :
    (∀ (dn : DailyNeeds) (foods : List Food),
      (calculateMealBalance dn foods).totals.calories
          = (foods.map fun f => f.calories.getD 0 * (f.quantity.getD 0 / 100)).sum ∧
      (calculateMealBalance dn foods).totals.protein
          = (foods.map fun f => f.protein.getD 0 * (f.quantity.getD 0 / 100)).sum ∧
      (calculateMealBalance dn foods).totals.carbs
          = (foods.map fun f => f.carbs.getD 0 * (f.quantity.getD 0 / 100)).sum ∧
      (calculateMealBalance dn foods).totals.fats
          = (foods.map fun f => f.fats.getD 0 * (f.quantity.getD 0 / 100)).sum) ∧
    (∀ (dn : DailyNeeds) (foods : List Food),
      (calculateMealBalance dn foods).percentages.calories
          = round2 ((calculateMealBalance dn foods).totals.calories / dn.calories * 100) ∧
      (calculateMealBalance dn foods).percentages.protein
          = round2 ((calculateMealBalance dn foods).totals.protein / dn.protein * 100) ∧
      (calculateMealBalance dn foods).percentages.carbs
          = round2 ((calculateMealBalance dn foods).totals.carbs / dn.carbs * 100) ∧
      (calculateMealBalance dn foods).percentages.fats
          = round2 ((calculateMealBalance dn foods).totals.fats / dn.fats * 100)) ∧
    (∀ (dn : DailyNeeds) (foods : List Food),
      (calculateMealBalance dn foods).is_balanced = true ↔
        (|(calculateMealBalance dn foods).percentages.calories - balanceTarget| ≤ 15 ∧
         |(calculateMealBalance dn foods).percentages.protein - balanceTarget| ≤ 15 ∧
         |(calculateMealBalance dn foods).percentages.carbs - balanceTarget| ≤ 15 ∧
         |(calculateMealBalance dn foods).percentages.fats - balanceTarget| ≤ 15)) ∧
    (∀ (dn : DailyNeeds) (foods : List Food),
      ((calculateMealBalance dn foods).percentages.calories = 50 ∨
       (calculateMealBalance dn foods).percentages.protein = 50 ∨
       (calculateMealBalance dn foods).percentages.carbs = 50 ∨
       (calculateMealBalance dn foods).percentages.fats = 50) →
        (calculateMealBalance dn foods).is_balanced = false) ∧
    ((calculateMealBalance defaultDailyNeeds
        [⟨"x", some 100, some 200, none, none, none⟩]).percentages.calories = 10) := by
  refine ⟨?_, ?_, ?_, ?_, ?_⟩
  · intro dn foods
    have h := mealTotals_foldl foods ⟨0, 0, 0, 0⟩
    show (mealTotals foods).calories = _ ∧ (mealTotals foods).protein = _ ∧
      (mealTotals foods).carbs = _ ∧ (mealTotals foods).fats = _
    rw [mealTotals, h]
    refine ⟨by ring, by ring, by ring, by ring⟩
  · intro dn foods
    exact ⟨rfl, rfl, rfl, rfl⟩
  · intro dn foods
    exact isBalancedB_iff _ 15
  · intro dn foods h50
    cases hb : (calculateMealBalance dn foods).is_balanced
    · rfl
    · exfalso
      have hall := (isBalancedB_iff (calculateMealBalance dn foods).percentages 15).1 hb
      rcases h50 with h | h | h | h <;>
        [have := hall.1; have := hall.2.1; have := hall.2.2.1; have := hall.2.2.2] <;>
        rw [h] at this <;> rw [balanceTarget] at this <;>
        exact absurd this (by norm_num [abs_le])
  · norm_num [calculateMealBalance, mealTotals, addFood, defaultDailyNeeds,
      round2, pyRound]

theorem calculate_meal_balance_spec_witness :
    (calculateMealBalance defaultDailyNeeds
      [⟨"y", some 100, some 1000, none, none, none⟩]).is_balanced = false :=
  calculate_meal_balance_spec.2.2.2.1 defaultDailyNeeds
    [⟨"y", some 100, some 1000, none, none, none⟩]
    (Or.inl (by norm_num [calculateMealBalance, mealTotals, addFood,
      defaultDailyNeeds, round2, pyRound]))

/-! ### `create_shopping_list`

The requirement dictionary is built with
`needed[key] = needed.get(key, 0) + quantity` (`bump`), the inventory
dictionary with a comprehension that overwrites on duplicate keys
(`setKey`); both keys are the string `name + "_" + unit`, split back at
the last underscore when an entry is emitted. -/

structure Ingredient where
  name : String
  quantity : Option ℚ
  unit : Option String
deriving DecidableEq, Repr

structure Meal where
  ingredients : List Ingredient
deriving DecidableEq, Repr

structure InvItem where
  name : String
  unit : String
  quantity : Option ℚ
deriving DecidableEq, Repr

structure ShopEntry where
  name : String
  quantity : ℚ
  unit : String
deriving DecidableEq, Repr

def ingKey (i : Ingredient) : String := i.name ++ "_" ++ i.unit.getD "g"

def invKey (it : InvItem) : String := it.name ++ "_" ++ it.unit

/-- `d[k] = d.get(k, 0) + q` on an insertion-ordered dictionary. -/
def bump : List (String × ℚ) → String → ℚ → List (String × ℚ)
  | [], k, q => [(k, q)]
  | (k', v) :: rest, k, q =>
    if k' = k then (k', v + q) :: rest else (k', v) :: bump rest k q

/-- `d[k] = q` (overwrite) on an insertion-ordered dictionary. -/
def setKey : List (String × ℚ) → String → ℚ → List (String × ℚ)
  | [], k, q => [(k, q)]
  | (k', v) :: rest, k, q =>
    if k' = k then (k', q) :: rest else (k', v) :: setKey rest k q

/-- `d.get(k, v)` on a dictionary with unique keys. -/
def dictGetD : List (String × ℚ) → String → ℚ → ℚ
  | [], _, v => v
  | (k', q) :: rest, k, v => if k' = k then q else dictGetD rest k v

/-- The `needed_items` dictionary of `create_shopping_list`. -/
def neededItems (plan : List Meal) : List (String × ℚ) :=
  plan.foldl (fun d meal =>
    meal.ingredients.foldl
      (fun d ing => bump d (ingKey ing) (ing.quantity.getD 0)) d) []

/-- The `inventory_dict` comprehension of `create_shopping_list`. -/
def inventoryDict (inv : List InvItem) : List (String × ℚ) :=
  inv.foldl (fun d it => setKey d (invKey it) (it.quantity.getD 0)) []

/-- Python `key.rsplit(sep, 1)`: split at the last underscore.  Keys
built by `create_shopping_list` always contain an underscore; the
underscore-free fallback is unreachable there. -/
def rsplitUnderscore (s : String) : String × String :=
  match (s.data.reverse).span (fun c => !(c == '_')) with
  | (after, _ :: before) => (⟨before.reverse⟩, ⟨after.reverse⟩)
  | (_, []) => (s, "")

/-- `NutritionCalculator.create_shopping_list`. -/
def createShoppingList (plan : List Meal) (inv : List InvItem) :
    List ShopEntry :=
  (neededItems plan).filterMap (fun kq =>
    if dictGetD (inventoryDict inv) kq.1 0 < kq.2 then
      some ⟨(rsplitUnderscore kq.1).1,
            kq.2 - dictGetD (inventoryDict inv) kq.1 0,
            (rsplitUnderscore kq.1).2⟩
    else none)

/-- The total quantity the meal plan requires under key `k`, summed over
every ingredient of every planned meal (the wording of the spec). -/
def requiredSum (plan : List Meal) (k : String) : ℚ :=
  (((plan.map Meal.ingredients).flatten.filter (fun i => ingKey i == k)).map
    (fun i => i.quantity.getD 0)).sum

/-- The quantity of the last inventory entry whose key is `k`: entries
further right take precedence over earlier ones. -/
def lastInvQty? : List InvItem → String → Option ℚ
  | [], _ => none
  | it :: rest, k =>
    match lastInvQty? rest k with
    | some q => some q
    | none => if invKey it == k then some (it.quantity.getD 0) else none

lemma dictGetD_bump (k' k : String) (q : ℚ) : ∀ d : List (String × ℚ),
    dictGetD (bump d k q) k' 0 = dictGetD d k' 0 + (if k = k' then q else 0) := by
  intro d
  induction d with
  | nil =>
    by_cases h : k = k' <;> simp [bump, dictGetD, h]
  | cons kv rest ih =>
    obtain ⟨a, v⟩ := kv
    by_cases hak : a = k
    · subst hak
      by_cases hk : a = k' <;> simp [bump, dictGetD, hk]
    · by_cases hak' : a = k'
      · subst hak'
        have hka : ¬ k = a := fun h => hak h.symm
        simp [bump, dictGetD, hak, hka]
      · simp [bump, dictGetD, hak, hak', ih]

lemma dictGetD_setKey (k' k : String) (q : ℚ) : ∀ d : List (String × ℚ),
    dictGetD (setKey d k q) k' 0 = if k = k' then q else dictGetD d k' 0 := by
  intro d
  induction d with
  | nil =>
    by_cases h : k = k' <;> simp [setKey, dictGetD, h]
  | cons kv rest ih =>
    obtain ⟨a, v⟩ := kv
    by_cases hak : a = k
    · subst hak
      by_cases hk : a = k' <;> simp [setKey, dictGetD, hk]
    · by_cases hak' : a = k'
      · subst hak'
        have hka : ¬ k = a := fun h => hak h.symm
        simp [setKey, dictGetD, hak, hka]
      · simp [setKey, dictGetD, hak, hak', ih]

lemma dictGetD_addIngs (k : String) : ∀ (ings : List Ingredient) (d : List (String × ℚ)),
    dictGetD (ings.foldl (fun d ing => bump d (ingKey ing) (ing.quantity.getD 0)) d) k 0
      = dictGetD d k 0 +
        ((ings.filter (fun i => ingKey i == k)).map (fun i => i.quantity.getD 0)).sum := by
  intro ings
  induction ings with
  | nil => intro d; simp
  | cons i rest ih =>
    intro d
    rw [List.foldl_cons, ih]
    by_cases h : ingKey i = k
    · simp [List.filter_cons, h, dictGetD_bump]
      ring
    · simp [List.filter_cons, h, dictGetD_bump]

lemma dictGetD_needed (k : String) : ∀ (plan : List Meal) (d : List (String × ℚ)),
    dictGetD (plan.foldl (fun d meal =>
        meal.ingredients.foldl
          (fun d ing => bump d (ingKey ing) (ing.quantity.getD 0)) d) d) k 0
      = dictGetD d k 0 +
        (((plan.map Meal.ingredients).flatten.filter (fun i => ingKey i == k)).map
          (fun i => i.quantity.getD 0)).sum := by
  intro plan
  induction plan with
  | nil => intro d; simp
  | cons meal rest ih =>
    intro d
    rw [List.foldl_cons, ih, dictGetD_addIngs]
    simp [add_assoc]

lemma neededItems_val (plan : List Meal) (k : String) :
    dictGetD (neededItems plan) k 0 = requiredSum plan k := by
  rw [neededItems, dictGetD_needed, requiredSum]
  simp [dictGetD]

lemma dictGetD_invFold (k : String) : ∀ (inv : List InvItem) (d : List (String × ℚ)),
    dictGetD (inv.foldl (fun d it => setKey d (invKey it) (it.quantity.getD 0)) d) k 0
      = match lastInvQty? inv k with
        | some q => q
        | none => dictGetD d k 0 := by
  intro inv
  induction inv with
  | nil => intro d; simp [lastInvQty?]
  | cons it rest ih =>
    intro d
    rw [List.foldl_cons, ih]
    cases hrest : lastInvQty? rest k with
    | some q => simp [lastInvQty?, hrest]
    | none =>
      by_cases h : invKey it = k
      · simp [lastInvQty?, hrest, h, dictGetD_setKey]
      · simp [lastInvQty?, hrest, h, dictGetD_setKey]

lemma inventoryDict_val (inv : List InvItem) (k : String) :
    dictGetD (inventoryDict inv) k 0 = (lastInvQty? inv k).getD 0 := by
  rw [inventoryDict, dictGetD_invFold]
  cases lastInvQty? inv k <;> simp [dictGetD]

/-- Keys already present keep their position under `bump`. -/
lemma mem_keys_bump {x k : String} {q : ℚ} : ∀ {d : List (String × ℚ)},
    x ∈ (bump d k q).map Prod.fst ↔ x ∈ d.map Prod.fst ∨ x = k := by
  intro d
  induction d with
  | nil => simp [bump]
  | cons kv rest ih =>
    obtain ⟨a, v⟩ := kv
    by_cases hak : a = k
    · subst hak
      simp [bump]
      tauto
    · simp [bump, hak, ih]
      tauto

lemma keys_nodup_bump {k : String} {q : ℚ} : ∀ {d : List (String × ℚ)},
    (d.map Prod.fst).Nodup → ((bump d k q).map Prod.fst).Nodup := by
  intro d
  induction d with
  | nil => simp [bump]
  | cons kv rest ih =>
    obtain ⟨a, v⟩ := kv
    intro hnd
    simp only [List.map_cons, List.nodup_cons] at hnd
    by_cases hak : a = k
    · subst hak
      rw [show bump ((a, v) :: rest) a q = (a, v + q) :: rest from if_pos rfl]
      simp only [List.map_cons, List.nodup_cons]
      exact hnd
    · simp only [bump, if_neg hak, List.map_cons, List.nodup_cons]
      refine ⟨?_, ih hnd.2⟩
      rw [mem_keys_bump]
      rintro (h | h)
      · exact hnd.1 h
      · exact hak h

lemma keys_nodup_addIngs : ∀ (ings : List Ingredient) (d : List (String × ℚ)),
    (d.map Prod.fst).Nodup →
    ((ings.foldl (fun d ing => bump d (ingKey ing) (ing.quantity.getD 0)) d).map
      Prod.fst).Nodup := by
  intro ings
  induction ings with
  | nil => intro d h; exact h
  | cons i rest ih =>
    intro d h
    exact ih _ (keys_nodup_bump h)

lemma keys_nodup_needed (plan : List Meal) :
    ((neededItems plan).map Prod.fst).Nodup := by
  rw [neededItems]
  have : ∀ (p : List Meal) (d : List (String × ℚ)), (d.map Prod.fst).Nodup →
      ((p.foldl (fun d meal =>
        meal.ingredients.foldl
          (fun d ing => bump d (ingKey ing) (ing.quantity.getD 0)) d) d).map
        Prod.fst).Nodup := by
    intro p
    induction p with
    | nil => intro d h; exact h
    | cons meal rest ih =>
      intro d h
      exact ih _ (keys_nodup_addIngs _ _ h)
  exact this plan [] (by simp)

lemma dictGetD_of_mem {k : String} {q : ℚ} : ∀ {d : List (String × ℚ)},
    (d.map Prod.fst).Nodup → (k, q) ∈ d → dictGetD d k 0 = q := by
  intro d
  induction d with
  | nil => intro _ h; cases h
  | cons kv rest ih =>
    obtain ⟨a, v⟩ := kv
    intro hnd hmem
    simp only [List.map_cons, List.nodup_cons] at hnd
    rcases List.mem_cons.1 hmem with heq | hmem'
    · obtain ⟨rfl, rfl⟩ := Prod.mk.injEq .. ▸ heq
      · simp [dictGetD]
    · by_cases hak : a = k
      · subst hak
        exact absurd (List.mem_map.2 ⟨(a, q), hmem', rfl⟩) hnd.1
      · simp only [dictGetD, if_neg hak]
        exact ih hnd.2 hmem'

/-! ### Claims C9 and C10 -/

def ricePlan : List Meal := [⟨[⟨"rice", some 200, some "g"⟩]⟩]

def riceInv : List InvItem := [⟨"rice", "g", some 100⟩]

/-- C9: `create_shopping_list` emits an entry for a key exactly when the
summed requirement strictly exceeds the available inventory quantity,
the entry quantity being the shortfall and its name/unit the two halves
of the key; the rice example yields exactly
`[{name := "rice", quantity := 100, unit := "g"}]`. -/
theorem create_shopping_list_spec :
    (∀ (plan : List Meal) (inv : List InvItem) (k : String) (q : ℚ),
      (k, q) ∈ neededItems plan →
      dictGetD (inventoryDict inv) k 0 < q →
      (⟨(rsplitUnderscore k).1, q - dictGetD (inventoryDict inv) k 0,
        (rsplitUnderscore k).2⟩ : ShopEntry) ∈ createShoppingList plan inv) ∧
    (∀ (plan : List Meal) (inv : List InvItem) (e : ShopEntry),
      e ∈ createShoppingList plan inv →
      ∃ k q, (k, q) ∈ neededItems plan ∧
        dictGetD (inventoryDict inv) k 0 < q ∧
        e.name = (rsplitUnderscore k).1 ∧ e.unit = (rsplitUnderscore k).2 ∧
        e.quantity = q - dictGetD (inventoryDict inv) k 0) ∧
    (∀ (plan : List Meal) (k : String) (q : ℚ),
      (k, q) ∈ neededItems plan → q = requiredSum plan k) ∧
    (createShoppingList ricePlan riceInv = [⟨"rice", 100, "g"⟩]) := by
  refine ⟨?_, ?_, ?_, ?_⟩
  · intro plan inv k q hmem hlt
    rw [createShoppingList, List.mem_filterMap]
    exact ⟨(k, q), hmem, by rw [if_pos hlt]⟩
  · intro plan inv e hmem
    rw [createShoppingList, List.mem_filterMap] at hmem
    obtain ⟨⟨k, q⟩, hkq, he⟩ := hmem
    by_cases hlt : dictGetD (inventoryDict inv) k 0 < q
    · rw [if_pos hlt] at he
      obtain rfl := Option.some.injEq .. ▸ he
      exact ⟨k, q, hkq, hlt, rfl, rfl, rfl⟩
    · rw [if_neg hlt] at he
      cases he
  · intro plan k q hmem
    rw [← neededItems_val plan k]
    exact (dictGetD_of_mem (keys_nodup_needed plan) hmem).symm
  · have happ : ("rice" ++ "_" ++ "g" : String) = "rice_g" := by decide
    have hsplit : rsplitUnderscore "rice_g" = ("rice", "g") := by decide
    norm_num [createShoppingList, neededItems, inventoryDict, bump, setKey,
      dictGetD, ingKey, invKey, ricePlan, riceInv, List.filterMap, happ, hsplit]

theorem create_shopping_list_spec_witness :
    (⟨(rsplitUnderscore "rice_g").1,
      200 - dictGetD (inventoryDict riceInv) "rice_g" 0,
      (rsplitUnderscore "rice_g").2⟩ : ShopEntry) ∈
      createShoppingList ricePlan riceInv := by
  have happ : ("rice" ++ "_" ++ "g" : String) = "rice_g" := by decide
  exact create_shopping_list_spec.1 ricePlan riceInv "rice_g" 200
    (by decide)
    (by norm_num [inventoryDict, setKey, dictGetD, invKey, riceInv, happ])

def dupPlan : List Meal :=
  [⟨[⟨"rice", some 150, some "g"⟩]⟩, ⟨[⟨"rice", some 50, some "g"⟩]⟩]

def dupInv : List InvItem :=
  [⟨"rice", "g", some 100⟩, ⟨"rice", "g", some 30⟩]

/-- C10: the inventory comprehension keeps only the last entry per key
(earlier duplicate inventory quantities are discarded, not summed),
while duplicate requirements across the plan are summed; with a plan
requiring 150g + 50g of rice and an inventory listing rice 100g then
rice 30g, the list contains rice 170g (200 required minus the last
entry, 30). -/
theorem shopping_list_duplicate_keys :
    (∀ (inv : List InvItem) (k : String),
      dictGetD (inventoryDict inv) k 0 = (lastInvQty? inv k).getD 0) ∧
    (∀ (plan : List Meal) (k : String),
      dictGetD (neededItems plan) k 0 = requiredSum plan k) ∧
    (createShoppingList dupPlan dupInv = [⟨"rice", 170, "g"⟩]) := by
  refine ⟨inventoryDict_val, neededItems_val, ?_⟩
  have happ : ("rice" ++ "_" ++ "g" : String) = "rice_g" := by decide
  have hsplit : rsplitUnderscore "rice_g" = ("rice", "g") := by decide
  norm_num [createShoppingList, neededItems, inventoryDict, bump, setKey,
    dictGetD, ingKey, invKey, dupPlan, dupInv, List.filterMap, happ, hsplit]

/-! ### Nutrition aggregator (`nutrition_scraper.py`)

The normalized record both clients build always carries a `calories`
field, so the record is a plain structure; providers are abstract
functions from a food name to a record or nothing. -/

structure NutritionRecord where
  name : String
  brand : String
  quantity : String
  calories : ℚ
  protein : ℚ
  carbs : ℚ
  fats : ℚ
  fiber : ℚ
  sugars : ℚ
  salt : ℚ
  saturated_fats : ℚ
  image_url : String
  source : String
deriving DecidableEq, Repr

abbrev Provider := String → Option NutritionRecord

/-- The validity predicate of the aggregator:
`nutrition and nutrition.get('calories', 0) > 0`. -/
def accepts : Option NutritionRecord → Bool
  | none => false
  | some r => decide (0 < r.calories)

structure NutritionScraper where
  openfoodfacts : Provider
  usda : Option Provider

/-- `NutritionScraper.get_nutrition_info`: Open Food Facts first, then
USDA when configured, `None` when no provider passes the validity
predicate. -/
def getNutritionInfo (s : NutritionScraper) (foodName : String) :
    Option NutritionRecord :=
  let n1 := s.openfoodfacts foodName
  if accepts n1 then n1
  else
    match s.usda with
    | some u => let n2 := u foodName; if accepts n2 then n2 else none
    | none => none

/-- The ordered provider list held by the scraper. -/
def providerList (s : NutritionScraper) : List Provider :=
  s.openfoodfacts :: (match s.usda with | some u => [u] | none => [])

/-- The fallback protocol as the spec words it: query the ordered
provider list in turn, return the first accepted record, `None` once
the list is exhausted. -/
def firstAccepted : List Provider → String → Option NutritionRecord
  | [], _ => none
  | p :: ps, n => if accepts (p n) then p n else firstAccepted ps n

/-! ### Claim C2: the fallback chain -/

/-- C2: the aggregator refines the ordered-list fallback: it equals
`firstAccepted` on its provider list, a first provider returning a
record with positive calories wins regardless of the remaining
providers (which are never queried), a zero-calorie or missing record
hands over to the rest of the chain, an all-rejected chain yields
`None`, and any returned record has strictly positive calories. -/
theorem get_nutrition_info_spec :
    (∀ (s : NutritionScraper) (n : String),
      getNutritionInfo s n = firstAccepted (providerList s) n) ∧
    (∀ (p : Provider) (ps : List Provider) (n : String) (r : NutritionRecord),
      p n = some r → 0 < r.calories → firstAccepted (p :: ps) n = some r) ∧
    (∀ (p : Provider) (ps : List Provider) (n : String) (r : NutritionRecord),
      p n = some r → r.calories ≤ 0 →
        firstAccepted (p :: ps) n = firstAccepted ps n) ∧
    (∀ (p : Provider) (ps : List Provider) (n : String),
      p n = none → firstAccepted (p :: ps) n = firstAccepted ps n) ∧
    (∀ (ps : List Provider) (n : String),
      (∀ p ∈ ps, accepts (p n) = false) → firstAccepted ps n = none) ∧
    (∀ (ps : List Provider) (n : String) (r : NutritionRecord),
      firstAccepted ps n = some r → 0 < r.calories) := by
  refine ⟨?_, ?_, ?_, ?_, ?_, ?_⟩
  · intro s n
    cases hu : s.usda with
    | none =>
      by_cases h : accepts (s.openfoodfacts n) <;>
        simp [getNutritionInfo, providerList, firstAccepted, hu, h]
    | some u =>
      by_cases h : accepts (s.openfoodfacts n) <;>
        simp [getNutritionInfo, providerList, firstAccepted, hu, h]
  · intro p ps n r hp hpos
    simp [firstAccepted, hp, accepts, hpos]
  · intro p ps n r hp hneg
    have : ¬ (0 < r.calories) := not_lt.2 hneg
    simp [firstAccepted, hp, accepts, this]
  · intro p ps n hp
    simp [firstAccepted, hp, accepts]
  · intro ps n h
    induction ps with
    | nil => rfl
    | cons p ps ih =>
      rw [firstAccepted.eq_def]
      simp only [h p (List.mem_cons_self p ps)]
      exact ih fun p' hp' => h p' (List.mem_cons_of_mem p hp')
  · intro ps n r h
    induction ps with
    | nil => cases h
    | cons p ps ih =>
      by_cases hacc : accepts (p n) = true
      · rw [firstAccepted.eq_def] at h
        simp only [hacc, if_true] at h
        rw [h] at hacc
        simpa [accepts] using hacc
      · rw [firstAccepted.eq_def] at h
        simp only [hacc] at h
        exact ih h

def recA : NutritionRecord := ⟨"A", "", "", 0, 0, 0, 0, 0, 0, 0, 0, "", "Open Food Facts"⟩

def recB : NutritionRecord := ⟨"B", "", "", 120, 0, 0, 0, 0, 0, 0, 0, "", "USDA FoodData Central"⟩

def provA : Provider := fun _ => some recA

def provB : Provider := fun _ => some recB

theorem get_nutrition_info_spec_witness :
    getNutritionInfo ⟨provA, some provB⟩ "apple" = some recB := by
  have h0 : getNutritionInfo ⟨provA, some provB⟩ "apple" =
      firstAccepted (providerList ⟨provA, some provB⟩) "apple" :=
    get_nutrition_info_spec.1 _ _
  have h1 : firstAccepted [provA, provB] "apple" = firstAccepted [provB] "apple" :=
    get_nutrition_info_spec.2.2.1 provA [provB] "apple" recA rfl
      (by norm_num [recA])
  have h2 : firstAccepted [provB] "apple" = some recB :=
    get_nutrition_info_spec.2.1 provB [] "apple" recB rfl (by norm_num [recB])
  rw [h0, show providerList ⟨provA, some provB⟩ = [provA, provB] from rfl, h1, h2]

/-! ### Claim C7: provider failures are absorbed

`OpenFoodFactsAPI.search_products` wraps the HTTP call in a
try/except: a transport or parsing failure is caught and turned into
an empty result list, so the client hands back no record and the
aggregator falls through to the next provider.  The HTTP outcome is an
explicit oracle value here. -/

structure Product where
  product_name : Option String
  brands : Option String
  quantity : Option String
  nutriments : List (String × ℚ)
  image_url : Option String
deriving DecidableEq, Repr

inductive HttpResult where
  | ok (products : List Product)
  | err (msg : String)
deriving DecidableEq, Repr

/-- `OpenFoodFactsAPI.search_products`: a raised `RequestException` is
caught and becomes an empty product list. -/
def searchProducts : HttpResult → List Product
  | .ok ps => ps
  | .err _ => []

/-- The normalized record `OpenFoodFactsAPI.get_nutrition_info` builds
with `nutriments.get(key, 0.0)` lookups. -/
def recordOfProduct (p : Product) : NutritionRecord :=
  ⟨p.product_name.getD "", p.brands.getD "", p.quantity.getD "",
   dictGetD p.nutriments "energy-kcal_100g" 0,
   dictGetD p.nutriments "proteins_100g" 0,
   dictGetD p.nutriments "carbohydrates_100g" 0,
   dictGetD p.nutriments "fat_100g" 0,
   dictGetD p.nutriments "fiber_100g" 0,
   dictGetD p.nutriments "sugars_100g" 0,
   dictGetD p.nutriments "salt_100g" 0,
   dictGetD p.nutriments "saturated-fat_100g" 0,
   p.image_url.getD "",
   "Open Food Facts"⟩

/-- `OpenFoodFactsAPI.get_nutrition_info` on one HTTP outcome:
the head of the product list, or nothing. -/
def offGetNutritionInfo (r : HttpResult) : Option NutritionRecord :=
  match searchProducts r with
  | [] => none
  | p :: _ => some (recordOfProduct p)

/-- The Open Food Facts client as a provider over an HTTP oracle. -/
def offClient (oracle : String → HttpResult) : Provider :=
  fun n => offGetNutritionInfo (oracle n)

/-- C7: a provider transport/parsing error yields an empty result list
and no record, the aggregator then behaves exactly as if only the
remaining providers existed, and the lookup reports `None` (never an
error) once every provider has failed or been rejected. -/
theorem provider_error_fallback :
    (∀ m : String, searchProducts (HttpResult.err m) = []) ∧
    (∀ m : String, offGetNutritionInfo (HttpResult.err m) = none) ∧
    (∀ (m : String) (u : Provider) (n : String),
      getNutritionInfo ⟨offClient (fun _ => HttpResult.err m), some u⟩ n =
        getNutritionInfo ⟨u, none⟩ n) ∧
    (∀ (m n : String),
      getNutritionInfo ⟨offClient (fun _ => HttpResult.err m), none⟩ n = none) ∧
    (∀ (m n : String) (u : Provider), accepts (u n) = false →
      getNutritionInfo ⟨offClient (fun _ => HttpResult.err m), some u⟩ n = none) := by
  refine ⟨fun m => rfl, fun m => rfl, ?_, ?_, ?_⟩
  · intro m u n
    rfl
  · intro m n
    rfl
  · intro m n u h
    simp [getNutritionInfo, offClient, offGetNutritionInfo, searchProducts, h]

theorem provider_error_fallback_witness :
    getNutritionInfo ⟨offClient (fun _ => HttpResult.err "timeout"),
      some (fun _ => none)⟩ "apple" = none :=
  provider_error_fallback.2.2.2.2 "timeout" "apple" (fun _ => none) rfl

end Foodler
